import Mathlib

/-!
# go-webdl: range planning, range workers, merge and output naming

A shallow embedding of `pkg/downloader/downloader.go`, `pkg/config/config.go`
and `internal/utils/utils.go`.

Conventions of the embedding.

* Go `int` values that the program only ever uses as sizes, offsets and counters
  are natural numbers.  All of them stay far below `2^63` for any real resource,
  so no wrap-around is modelled.
* File contents and response bodies are lists of byte values.
* The `for i := 1; i <= Concurrency; i++` loops are structural recursions on the
  number of iterations that remain.
* `log.Fatal` ends the process; functions that can reach it return the state of
  the world at that moment together with an `Outcome`.
* `Concurrency` is a natural number: `NewFromConfig` replaces every value below 1 by 1
  before anything else reads it.  `CopyBufferSize` is an integer: `NewFromConfig`
  replaces only `0`, so a negative `-buffer` reaches `Download` as it is.
* A run is followed to its end without a pause (`dl.Paused` stays false, the context is
  never cancelled).  A paused run enters only through the part files it leaves behind.
* Ranged requests and writes to an open part file succeed; the failures that are
  followed are those of `http.Head`, `strconv.Atoi`, the plain `http.Get` and of opening
  the output file or a part file in `merge`.
-/

namespace WebDL

/-- File contents and HTTP bodies. -/
abbrev Bytes := List Nat

/-- The `config.Config` record. -/
structure Config where
  Url : String
  Concurrency : Nat
  OutFilename : String
  CopyBufferSize : Int
  Resume : Bool
deriving DecidableEq

/-! ## Range planning in `multiDownload` -/

/-- The arguments of one `go dl.downloadPartial(rangeStart, rangeStop, partialNum, wg)`. -/
structure PartialCall where
  rangeStart : Nat
  rangeStop : Nat
  partialNum : Nat
deriving DecidableEq

/-- The body of the `for i := 1; i <= dl.config.Concurrency; i++` loop of `multiDownload`,
with `remaining` iterations left, loop variable `i` and accumulator `startRange`.
`downloaded i` is the value the resume block computes for part `i`
(the length of the part file, or `0`). -/
def multiDownloadLoop (contentSize partSize concurrency : Nat) (downloaded : Nat → Nat) :
    Nat → Nat → Nat → List PartialCall
  | 0, _, _ => []
  | remaining + 1, i, startRange =>
    (if i = concurrency then
        { rangeStart := startRange + downloaded i, rangeStop := contentSize, partialNum := i }
      else
        { rangeStart := startRange + downloaded i, rangeStop := startRange + partSize,
          partialNum := i })
      :: multiDownloadLoop contentSize partSize concurrency downloaded remaining (i + 1)
          (startRange + partSize + 1)

/-- The calls to `downloadPartial` made by `multiDownload(contentSize)`, in loop order. -/
def multiDownloadCalls (contentSize concurrency : Nat) (downloaded : Nat → Nat) :
    List PartialCall :=
  multiDownloadLoop contentSize (contentSize / concurrency) concurrency downloaded
    concurrency 1 0

/-- On a fresh run `dl.config.Resume` is false and `downloaded` stays `0` for every part. -/
def freshDownloaded : Nat → Nat := fun _ => 0

/-- The inclusive `(rangeStart, rangeStop)` pairs of a fresh run, parts `1..C` in order. -/
def freshRanges (contentSize concurrency : Nat) : List (Nat × Nat) :=
  (multiDownloadCalls contentSize concurrency freshDownloaded).map
    (fun c => (c.rangeStart, c.rangeStop))

/-- Number of byte offsets in the inclusive range `[a, b]`. -/
def rangeLength (r : Nat × Nat) : Nat := r.2 + 1 - r.1

/-! ## Files, requests and the server -/

/-- Where `log.Fatal` is reached. -/
inductive FatalError
  | headRequest
  | contentLength
  | cannotResume
  | getRequest
  | openOutput
  | openPart (partNum : Nat)
deriving DecidableEq

/-- How a run of the program ends: it returns, `log.Fatal` exits the process, or a
run-time panic (`make` with a negative length, `io.CopyBuffer` with an empty buffer)
crashes it. -/
inductive Outcome
  | completed
  | fatal (e : FatalError)
  | panic
deriving DecidableEq

/-- The files a job touches: the output file `OutFilename` and the part files
`getPartFilename(i) = OutFilename + ".part" + strconv.Itoa(i)`, keyed by `i`.
`none` is a file that does not exist.  `outOpenable` tells whether
`os.OpenFile(OutFilename, os.O_CREATE|os.O_WRONLY, 0666)` succeeds. -/
structure FS where
  out : Option Bytes
  outOpenable : Bool
  parts : Nat → Option Bytes

/-- The value of the `Range` header set by `downloadPartial`:
`fmt.Sprintf("bytes=%d-%d", rangeStart, rangeStop)`. -/
def rangeHeader (rangeStart rangeStop : Nat) : String :=
  "bytes=" ++ Nat.repr rangeStart ++ "-" ++ Nat.repr rangeStop

/-- The HTTP requests the program issues. -/
inductive Request
  | head
  | get
  | getRange (header : String)
deriving DecidableEq

/-- What `Download` reads from the response to `http.Head`: the status code, the
`Accept-Ranges` header and the result of `strconv.Atoi` on `Content-Length`
(`none` when it fails). -/
structure HeadResponse where
  StatusCode : Nat
  AcceptRanges : String
  ContentLength : Option Nat

/-- The remote side.  `head` and `get` are `none` when the request returns an error;
`getRange a b` is the body sent in answer to `Range: bytes=a-b`. -/
structure Server where
  head : Option HeadResponse
  get : Option Bytes
  getRange : Nat → Nat → Bytes

/-- A server for `resource` that supports ranges: it answers `Range: bytes=a-b` with the
bytes of the resource at offsets `a .. min b (N-1)`. -/
def rangeServer (resource : Bytes) : Server where
  head := some { StatusCode := 200, AcceptRanges := "bytes", ContentLength := some resource.length }
  get := some resource
  getRange := fun a b => (resource.take (b + 1)).drop a

/-- The files of the job together with the requests issued so far. -/
structure World where
  fs : FS
  requests : List Request

/-- Writing `b` into a file at offset `off` without truncating it. -/
def writeAt (content : Bytes) (off : Nat) (b : Bytes) : Bytes :=
  content.take off ++ b ++ content.drop (off + b.length)

/-! ## `downloadPartial` -/

/-- The copy loop of `downloadPartial` when the context is never cancelled: each
iteration runs `io.CopyN(f, res.Body, CopyBufferSize)`, which moves one chunk and reports
`io.EOF` when fewer than `CopyBufferSize` bytes were left.  With `O_APPEND` every write
goes to the end of the file; without it writes go to the file offset, which starts at `0`.
The first argument bounds the number of iterations; `body.length + 1` is enough when
`CopyBufferSize ≥ 1`.  For a size below 1, `io.CopyN` copies nothing and reports no error,
the loop of the program never ends, and the bound is reached with nothing written. -/
def copyLoop (bufSize : Nat) ( append : Bool) : Nat → Bytes → Bytes → Nat → Bytes
  | 0, _, content, _ => content
  | fuel + 1, body, content, off =>
    let chunk := body.take bufSize
    let content1 := if append then content ++ chunk else writeAt content off chunk
    if chunk.length < bufSize then content1
    else copyLoop bufSize append fuel (body.drop bufSize) content1 (off + chunk.length)

/-- The worker `downloadPartial(rangeStart, rangeStop, partialNum, wg)` of a run that is
not paused: the guard `rangeStart >= rangeStop`, the ranged GET, the part file opened with
`O_CREATE|O_WRONLY` (plus `O_APPEND` in resume mode) and the copy loop. -/
def downloadPartial (cfg : Config) (srv : Server) (c : PartialCall) (w : World) : World :=
  if c.rangeStart ≥ c.rangeStop then w
  else
    let body := srv.getRange c.rangeStart c.rangeStop
    let old := (w.fs.parts c.partialNum).getD []
    let new := copyLoop cfg.CopyBufferSize.toNat cfg.Resume (body.length + 1) body old 0
    { fs := { w.fs with parts := Function.update w.fs.parts c.partialNum (some new) }
      requests := w.requests ++ [Request.getRange (rangeHeader c.rangeStart c.rangeStop)] }

/-! ## `merge` -/

/-- The `for i := 1; i <= dl.config.Concurrency; i++` loop of `merge`, with `remaining`
iterations left, loop variable `i` and `off` the write offset of `destination`:
open part `i` (fatal when that fails), `io.Copy` it to the destination, remove it. -/
def mergeLoop : Nat → Nat → Nat → FS → FS × Outcome
  | 0, _, _, fs => (fs, Outcome.completed)
  | remaining + 1, i, off, fs =>
    match fs.parts i with
    | none => (fs, Outcome.fatal (FatalError.openPart i))
    | some b =>
      mergeLoop remaining (i + 1) (off + b.length)
        { fs with
          out := some (writeAt (fs.out.getD []) off b)
          parts := Function.update fs.parts i none }

/-- The function `merge`: open (creating it if needed, never truncating) the output file,
then run the loop over the part files. -/
def merge (cfg : Config) (fs : FS) : FS × Outcome :=
  if fs.outOpenable then
    mergeLoop cfg.Concurrency 1 0 { fs with out := some (fs.out.getD []) }
  else (fs, Outcome.fatal FatalError.openOutput)

/-! ## `multiDownload`, `simpleDownload`, `Download` -/

/-- The `// handle resume` block of `multiDownload`: in resume mode `downloaded` is the size
of part file `i` when it can be opened, else `0`. -/
def resumeDownloaded (cfg : Config) (fs : FS) : Nat → Nat := fun i =>
  if cfg.Resume then
    match fs.parts i with
    | some b => b.length
    | none => 0
  else 0

/-- The fan-out of `multiDownload(contentSize)` up to `wg.Wait()`, for a run that is not
paused: the plan, then one `downloadPartial` per part.  Each worker touches only its own
part file, so the order in which the workers run does not matter. -/
def multiDownloadWorkers (cfg : Config) (srv : Server) (contentSize : Nat) (w : World) :
    World :=
  (multiDownloadCalls contentSize cfg.Concurrency (resumeDownloaded cfg w.fs)).foldl
    (fun acc c => downloadPartial cfg srv c acc) w

/-- The function `multiDownload(contentSize)` for a run that is not paused: the workers,
then `merge` (`dl.Paused` is false). -/
def multiDownload (cfg : Config) (srv : Server) (contentSize : Nat) (w : World) :
    World × Outcome :=
  let w1 := multiDownloadWorkers cfg srv contentSize w
  let r := merge cfg w1.fs
  ({ w1 with fs := r.1 }, r.2)

/-- The read/write loop of `io.CopyBuffer(f, res.Body, buffer)` with a buffer of `bufLen`
bytes: read up to `bufLen` bytes, write them at the file offset, stop when the body is
exhausted.  The first argument bounds the number of iterations; `body.length + 1` is
enough when `bufLen ≥ 1`. -/
def copyBufferLoop (bufLen : Nat) : Nat → Bytes → Bytes → Nat → Bytes
  | 0, _, content, _ => content
  | fuel + 1, body, content, off =>
    if body = [] then content
    else
      let chunk := body.take bufLen
      copyBufferLoop bufLen fuel (body.drop bufLen) (writeAt content off chunk)
        (off + chunk.length)

/-- The function `simpleDownload`: the resume check, the plain GET, the output file opened
with `O_CREATE|O_WRONLY`, then `buffer := make([]byte, CopyBufferSize)` and
`io.CopyBuffer`.  `make` panics on a negative length and `io.CopyBuffer` panics on an empty
buffer; both come after the output file has been created. -/
def simpleDownload (cfg : Config) (srv : Server) (w : World) : World × Outcome :=
  if cfg.Resume then (w, Outcome.fatal FatalError.cannotResume)
  else
    let w1 : World := { w with requests := w.requests ++ [Request.get] }
    match srv.get with
    | none => (w1, Outcome.fatal FatalError.getRequest)
    | some body =>
      if w1.fs.outOpenable then
        let old := w1.fs.out.getD []
        if cfg.CopyBufferSize < 1 then
          ({ w1 with fs := { w1.fs with out := some old } }, Outcome.panic)
        else
          ({ w1 with
              fs := { w1.fs with
                out := some (copyBufferLoop cfg.CopyBufferSize.toNat (body.length + 1)
                  body old 0) } },
            Outcome.completed)
      else (w1, Outcome.fatal FatalError.openOutput)

/-- The function `Download`: probe with `http.Head`, then `multiDownload` when the
response has status 200 and `Accept-Ranges: bytes`, else `simpleDownload`. -/
def Download (cfg : Config) (srv : Server) (w : World) : World × Outcome :=
  let w1 : World := { w with requests := w.requests ++ [Request.head] }
  match srv.head with
  | none => (w1, Outcome.fatal FatalError.headRequest)
  | some res =>
    if res.StatusCode = 200 ∧ res.AcceptRanges = "bytes" then
      match res.ContentLength with
      | none => (w1, Outcome.fatal FatalError.contentLength)
      | some contentSize => multiDownload cfg srv contentSize w1
    else simpleDownload cfg srv w1

/-- The method `Resume`: set the resume flag and run `Download` again. -/
def Resume (cfg : Config) (srv : Server) (w : World) : World × Outcome :=
  Download { cfg with Resume := true } srv w

/-- A file system with neither output file nor part files. -/
def emptyFS : FS := { out := none, outOpenable := true, parts := fun _ => none }

/-- A file system holding the given part files `.part1`, `.part2`, ... and no output. -/
def partsFS (ps : List Bytes) : FS :=
  { out := none, outOpenable := true, parts := fun i => if i = 0 then none else ps[i - 1]? }

/-! ## Output naming: `GetFilenameAndExt`, `renameFilenameIfNecessary`, `NewFromConfig`

The Go standard library functions the program calls on paths (`filepath.Ext`,
`strings.TrimSuffix`, `filepath.Dir`, `path.Base`, `path.Clean`, `path.Join`, with `/` as
the separator) are written out on lists of characters, following their documentation. -/

/-- Scan of `filepath.Ext` from the end of the path: stop with no extension at a `/`,
stop at the first `.` met and return the suffix that starts there. -/
def extScan : List Char → List Char → List Char
  | [], _ => []
  | c :: rest, acc =>
    if c = '/' then [] else if c = '.' then '.' :: acc else extScan rest (c :: acc)

/-- Go `filepath.Ext`: the suffix beginning at the final dot in the final element of the
path; empty if there is no dot. -/
def filepathExt (path : String) : String :=
  String.mk (extScan path.data.reverse [])

/-- Go `strings.TrimSuffix`. -/
def stringsTrimSuffix (s suffix : String) : String :=
  if suffix.data.isSuffixOf s.data then String.mk (s.data.take (s.data.length - suffix.data.length))
  else s

/-- The function `utils.GetFilenameAndExt`. -/
def GetFilenameAndExt (fileName : String) : String × String :=
  let ext := filepathExt fileName
  (stringsTrimSuffix fileName ext, ext)

/-- The elements of a path between its `/` separators. -/
def splitSlash : List Char → List (List Char)
  | [] => [[]]
  | c :: cs =>
    if c = '/' then [] :: splitSlash cs
    else
      match splitSlash cs with
      | [] => [[c]]
      | x :: xs => (c :: x) :: xs

/-- One element of the path seen by `path.Clean`; `stack` holds the elements kept so far,
the last one first.  Empty and `.` elements are dropped, `..` removes the element before
it when there is one that is not `..`, is dropped at the root and is kept otherwise. -/
def cleanStep (rooted : Bool) (stack : List (List Char)) (el : List Char) :
    List (List Char) :=
  if el = [] ∨ el = ['.'] then stack
  else if el = ['.', '.'] then
    match stack with
    | [] => if rooted then [] else [el]
    | top :: rest => if top = ['.', '.'] then (if rooted then stack else el :: stack) else rest
  else el :: stack

/-- Go `path.Clean`: the shortest path equivalent to the argument by purely lexical
processing; the empty path becomes `.`. -/
def pathClean (path : String) : String :=
  let rooted := path.data.head? = some '/'
  let stack := (splitSlash path.data).foldl (cleanStep rooted) []
  let body := List.intercalate ['/'] stack.reverse
  if rooted then String.mk ('/' :: body)
  else if stack = [] then "." else String.mk body

/-- Go `path.Join`: the non-empty leading elements are skipped, the rest is joined with `/`
and cleaned; the result is empty when every element is. -/
def pathJoin (elems : List String) : String :=
  match elems.dropWhile (fun e => e = "") with
  | [] => ""
  | rest => pathClean (String.mk (List.intercalate ['/'] (rest.map String.data)))

/-- Go `filepath.Dir`: all but the last element of the path, cleaned. -/
def filepathDir (path : String) : String :=
  pathClean (String.mk (path.data.reverse.dropWhile (fun c => c ≠ '/')).reverse)

/-- Go `path.Base`: the last element of the path, after removing trailing slashes;
`.` for the empty path and `/` for a path made of slashes only. -/
def pathBase (path : String) : String :=
  if path = "" then "."
  else
    let stripped := (path.data.reverse.dropWhile (fun c => c = '/')).reverse
    if stripped = [] then "/"
    else String.mk (stripped.reverse.takeWhile (fun c => c ≠ '/')).reverse

/-- The `for err == nil` loop of `renameFilenameIfNecessary`.  `existing` lists the paths
for which `os.Stat` returns no error.  The first argument bounds the number of
iterations; the result is `none` when the bound is reached. -/
def renameLoop (existing : List String) (filename ext outDir : String) :
    Nat → Nat → Option String
  | 0, _ => none
  | fuel + 1, counter =>
    let newFilename := filename ++ "(" ++ Nat.repr counter ++ ")" ++ ext
    let outFilename := pathJoin [outDir, newFilename]
    if outFilename ∈ existing then renameLoop existing filename ext outDir fuel (counter + 1)
    else some outFilename

/-- The function `renameFilenameIfNecessary`, returning the updated configuration. -/
def renameFilenameIfNecessary (cfg : Config) (existing : List String) : Option Config :=
  if cfg.Resume then some cfg
  else if cfg.OutFilename ∈ existing then
    let fe := GetFilenameAndExt cfg.OutFilename
    let outDir := filepathDir cfg.OutFilename
    (renameLoop existing fe.1 fe.2 outDir (existing.length + 1) 1).map
      (fun o => { cfg with OutFilename := o })
  else some cfg

/-- The function `NewFromConfig`: `none` stands for the error `url is empty` (or for the
renaming loop not ending within its bound). -/
def NewFromConfig (cfg : Config) (existing : List String) : Option Config :=
  if cfg.Url = "" then none
  else
    let c1 := if cfg.Concurrency < 1 then { cfg with Concurrency := 1 } else cfg
    let c2 := if c1.OutFilename = "" then { c1 with OutFilename := pathBase c1.Url } else c1
    let c3 := if c2.CopyBufferSize = 0 then { c2 with CopyBufferSize := 1024 } else c2
    renameFilenameIfNecessary c3 existing

/-! ### Closed form of the plan -/

theorem multiDownloadLoop_length (N p C : Nat) (d : Nat → Nat) (k i s : Nat) :
    (multiDownloadLoop N p C d k i s).length = k := by
  induction k generalizing i s with
  | zero => rfl
  | succ k ih => simp [multiDownloadLoop, ih]

theorem multiDownloadLoop_getElem? (N p C : Nat) (d : Nat → Nat) (k i s j : Nat)
    (hj : j < k) :
    (multiDownloadLoop N p C d k i s)[j]? =
      some (if i + j = C then
          { rangeStart := s + j * (p + 1) + d (i + j), rangeStop := N, partialNum := i + j }
        else
          { rangeStart := s + j * (p + 1) + d (i + j), rangeStop := s + j * (p + 1) + p,
            partialNum := i + j }) := by
  induction k generalizing i s j with
  | zero => omega
  | succ k ih =>
    cases j with
    | zero => simp [multiDownloadLoop]
    | succ j =>
      have hj2 : j < k := by omega
      have e1 : i + 1 + j = i + (j + 1) := by omega
      have e2 : s + p + 1 + j * (p + 1) = s + (j + 1) * (p + 1) := by ring
      simp only [multiDownloadLoop, List.getElem?_cons_succ]
      rw [ih (i + 1) (s + p + 1) j hj2, e1, e2]

/-- C2: on a fresh run, for `1 ≤ i < C`, the inclusive end of the range passed to
`downloadPartial` for part `i`, plus one, is the start of the range passed for part `i+1`. -/
theorem multiDownload_fresh_adjacent (N C i : Nat) (h1 : 1 ≤ i) (h2 : i < C) :
    ∃ a b : PartialCall,
      (multiDownloadCalls N C freshDownloaded)[i - 1]? = some a ∧
      (multiDownloadCalls N C freshDownloaded)[i]? = some b ∧
      a.partialNum = i ∧ b.partialNum = i + 1 ∧
      a.rangeStop + 1 = b.rangeStart := by
  obtain ⟨j, rfl⟩ : ∃ j, i = j + 1 := ⟨i - 1, by omega⟩
  have ha := multiDownloadLoop_getElem? N (N / C) C freshDownloaded C 1 0 j (by omega)
  have hb := multiDownloadLoop_getElem? N (N / C) C freshDownloaded C 1 0 (j + 1) h2
  have hne : ¬ (1 + j = C) := by omega
  rw [if_neg hne] at ha
  refine ⟨_, _, ha, hb, ?_, ?_, ?_⟩
  · simp only []; omega
  · split <;> simp only [] <;> omega
  · split <;> simp only [freshDownloaded] <;> ring

theorem multiDownload_fresh_adjacent_witness :
    (1 ≤ 3 ∧ 3 < 4) ∧
    ∃ a b : PartialCall,
      (multiDownloadCalls 1000 4 freshDownloaded)[3 - 1]? = some a ∧
      (multiDownloadCalls 1000 4 freshDownloaded)[3]? = some b ∧
      a.partialNum = 3 ∧ b.partialNum = 3 + 1 ∧
      a.rangeStop + 1 = b.rangeStart :=
  ⟨by decide, multiDownload_fresh_adjacent 1000 4 3 (by decide) (by decide)⟩

/-- C1: for `N = 1000`, `C = 4` the fresh plan is `[0,250] [251,501] [502,752] [753,1000]`:
the last range ends at `N`, not at `N - 1`, so the ranges do not partition `[0, N)`. -/
theorem multiDownload_fresh_last_stop :
    freshRanges 1000 4 = [(0, 250), (251, 501), (502, 752), (753, 1000)] ∧
    (freshRanges 1000 4).getLast? = some (753, 1000) ∧
    (freshRanges 1000 4).getLast? ≠ some (753, 1000 - 1) ∧
    freshRanges 3 4 = [(0, 0), (1, 1), (2, 2), (3, 3)] := by
  decide

/-- C6: for `N = 1000`, `C = 4` every range but the last holds `N / C + 1 = 251` offsets
and the plan differs from `[0,249] [250,499] [500,749] [750,999]`; for `N = 10`, `C = 8`
parts 6 and 7 lie wholly beyond the last byte of the resource. -/
theorem multiDownload_fresh_part_sizes :
    (freshRanges 1000 4).map rangeLength = [251, 251, 251, 248] ∧
    1000 / 4 = 250 ∧
    freshRanges 1000 4 ≠ [(0, 249), (250, 499), (500, 749), (750, 999)] ∧
    freshRanges 10 8 =
      [(0, 1), (2, 3), (4, 5), (6, 7), (8, 9), (10, 11), (12, 13), (14, 10)] := by
  decide

/-! ## `merge` and the part files -/

theorem mergeLoop_missing (k i off : Nat) (fs : FS)
    (h : ∃ j, i ≤ j ∧ j < i + k ∧ fs.parts j = none) :
    ∃ e, (mergeLoop k i off fs).2 = Outcome.fatal e := by
  induction k generalizing i off fs with
  | zero => obtain ⟨j, h1, h2, _⟩ := h; omega
  | succ k ih =>
    obtain ⟨j, h1, h2, h3⟩ := h
    cases hp : fs.parts i with
    | none => exact ⟨FatalError.openPart i, by simp [mergeLoop, hp]⟩
    | some b =>
      have hne : j ≠ i := by
        intro e
        rw [e, hp] at h3
        cases h3
      simp only [mergeLoop, hp]
      apply ih
      exact ⟨j, by omega, by omega, by simp [Function.update, hne, h3]⟩

theorem mergeLoop_failed (k i off : Nat) (fs : FS)
    (h : (mergeLoop k i off fs).2 ≠ Outcome.completed) :
    ∃ j, i ≤ j ∧ j < i + k ∧ fs.parts j = none ∧
      (mergeLoop k i off fs).2 = Outcome.fatal (FatalError.openPart j) ∧
      ∀ m, (mergeLoop k i off fs).1.parts m = if i ≤ m ∧ m < j then none else fs.parts m := by
  induction k generalizing i off fs with
  | zero => exact absurd rfl h
  | succ k ih =>
    cases hp : fs.parts i with
    | none =>
      refine ⟨i, le_refl i, by omega, hp, by simp [mergeLoop, hp], ?_⟩
      intro m
      have hm : ¬ (i ≤ m ∧ m < i) := by omega
      simp [mergeLoop, hp, hm]
    | some b =>
      simp only [mergeLoop, hp] at h ⊢
      obtain ⟨j, h1, h2, h3, h4, h5⟩ := ih (i + 1) (off + b.length) _ h
      have hne : j ≠ i := by omega
      refine ⟨j, by omega, by omega, ?_, h4, ?_⟩
      · simpa [Function.update, hne] using h3
      · intro m
        rw [h5 m]
        by_cases hmi : m = i
        · subst hmi
          have : m ≤ m ∧ m < j := ⟨le_refl m, by omega⟩
          simp [Function.update, this]
        · by_cases hc : i + 1 ≤ m ∧ m < j
          · have : i ≤ m ∧ m < j := ⟨by omega, hc.2⟩
            simp [hc, this]
          · have : ¬ (i ≤ m ∧ m < j) := by omega
            simp [hc, this, Function.update, hmi]

/-- C9 (amended): whenever one of the part files `.part1 .. .partC` is missing, `merge`
ends in `log.Fatal`; it never completes. -/
theorem merge_missing_part_fatal (cfg : Config) (fs : FS)
    (h : ∃ i, 1 ≤ i ∧ i ≤ cfg.Concurrency ∧ fs.parts i = none) :
    ∃ e, (merge cfg fs).2 = Outcome.fatal e := by
  unfold merge
  split
  · obtain ⟨i, h1, h2, h3⟩ := h
    exact mergeLoop_missing _ _ _ _ ⟨i, h1, by omega, h3⟩
  · exact ⟨_, rfl⟩

theorem merge_missing_part_fatal_witness :
    (∃ i, 1 ≤ i ∧ i ≤ (Config.mk "u" 2 "o" 1024 false).Concurrency ∧
      (partsFS [[1, 2]]).parts i = none) ∧
    ∃ e, (merge (Config.mk "u" 2 "o" 1024 false) (partsFS [[1, 2]])).2 = Outcome.fatal e :=
  ⟨⟨2, by decide, by decide, by decide⟩,
    merge_missing_part_fatal (Config.mk "u" 2 "o" 1024 false) (partsFS [[1, 2]])
      ⟨2, by decide, by decide, by decide⟩⟩

/-- C9 (as stated, refuted): with `N = 4`, `C = 1` the planned range is `[0, 4]`; a part
file holding a single byte is shorter than that range, yet `merge` completes and the
output is that single byte. -/
theorem merge_short_part_completes :
    freshRanges 4 1 = [(0, 4)] ∧
    (partsFS [[10]]).parts 1 = some [10] ∧
    [10].length < rangeLength (0, 4) ∧
    (merge (Config.mk "u" 1 "o" 1024 false) (partsFS [[10]])).2 = Outcome.completed ∧
    (merge (Config.mk "u" 1 "o" 1024 false) (partsFS [[10]])).1.out = some [10] := by
  decide

/-- C10 (amended): when `merge` fails because the output cannot be opened, every part file
is as before; when it fails at part `k`, the first part file that cannot be opened, the
part files `.part1 .. .part(k-1)` have been copied and removed and every other part file,
in particular every one from `k` on, is as before. -/
theorem merge_failed_parts (cfg : Config) (fs : FS)
    (h : (merge cfg fs).2 ≠ Outcome.completed) :
    (fs.outOpenable = false → (merge cfg fs).1.parts = fs.parts) ∧
    (fs.outOpenable = true →
      ∃ k, 1 ≤ k ∧ k ≤ cfg.Concurrency ∧ fs.parts k = none ∧
        (merge cfg fs).2 = Outcome.fatal (FatalError.openPart k) ∧
        ∀ m, (merge cfg fs).1.parts m = if 1 ≤ m ∧ m < k then none else fs.parts m) := by
  constructor
  · intro ho
    simp [merge, ho]
  · intro ho
    simp only [merge, ho, if_true] at h ⊢
    obtain ⟨j, h1, h2, h3, h4, h5⟩ := mergeLoop_failed _ _ _ _ h
    exact ⟨j, h1, by omega, h3, h4, h5⟩

theorem merge_failed_parts_witness :
    (merge (Config.mk "u" 2 "o" 1024 false) (partsFS [[1, 2]])).2 ≠ Outcome.completed ∧
    ((partsFS [[1, 2]]).outOpenable = false →
      (merge (Config.mk "u" 2 "o" 1024 false) (partsFS [[1, 2]])).1.parts =
        (partsFS [[1, 2]]).parts) ∧
    ((partsFS [[1, 2]]).outOpenable = true →
      ∃ k, 1 ≤ k ∧ k ≤ (Config.mk "u" 2 "o" 1024 false).Concurrency ∧
        (partsFS [[1, 2]]).parts k = none ∧
        (merge (Config.mk "u" 2 "o" 1024 false) (partsFS [[1, 2]])).2 =
          Outcome.fatal (FatalError.openPart k) ∧
        ∀ m, (merge (Config.mk "u" 2 "o" 1024 false) (partsFS [[1, 2]])).1.parts m =
          if 1 ≤ m ∧ m < k then none else (partsFS [[1, 2]]).parts m) :=
  ⟨by decide,
    merge_failed_parts (Config.mk "u" 2 "o" 1024 false) (partsFS [[1, 2]]) (by decide)⟩

/-- C10 (as stated, refuted): with `C = 2`, `.part1` present and `.part2` missing, `merge`
fails at part 2 after it has copied and removed `.part1`. -/
theorem merge_failed_removes_part :
    (partsFS [[1, 2]]).parts 1 = some [1, 2] ∧
    (merge (Config.mk "u" 2 "o" 1024 false) (partsFS [[1, 2]])).2 =
      Outcome.fatal (FatalError.openPart 2) ∧
    (merge (Config.mk "u" 2 "o" 1024 false) (partsFS [[1, 2]])).1.parts 1 = none ∧
    (merge (Config.mk "u" 2 "o" 1024 false) (partsFS [[1, 2]])).1.out = some [1, 2] := by
  decide

/-! ## `Download` without range support -/

theorem writeAt_length (content b : Bytes) :
    writeAt content content.length b = content ++ b := by
  simp [writeAt]

theorem writeAt_nil (content : Bytes) (off : Nat) : writeAt content off [] = content := by
  simp [writeAt]

theorem writeAt_length_ge (content b : Bytes) (off : Nat) (h : off ≤ content.length) :
    off + b.length ≤ (writeAt content off b).length := by
  simp only [writeAt, List.length_append, List.length_take, List.length_drop]
  omega

theorem writeAt_writeAt (content a b : Bytes) (off : Nat) (h : off ≤ content.length) :
    writeAt (writeAt content off a) (off + a.length) b = writeAt content off (a ++ b) := by
  have hlen : (content.take off ++ a).length = off + a.length := by
    simp only [List.length_append, List.length_take]
    omega
  have h1 : (writeAt content off a).take (off + a.length) = content.take off ++ a := by
    unfold writeAt
    rw [← hlen, List.take_left']
    rfl
  have h2 : (writeAt content off a).drop (off + a.length + b.length) =
      content.drop (off + (a ++ b).length) := by
    unfold writeAt
    have e : off + a.length + b.length = (content.take off ++ a).length + b.length := by
      rw [hlen]
    rw [e, List.drop_append, List.drop_drop, List.length_append]
    congr 1
    omega
  unfold writeAt at h1 h2 ⊢
  rw [h1, h2]
  simp [List.append_assoc]

/-- The bound `body.length + 1` on the iterations of the `io.CopyBuffer` loop is enough:
with a buffer of at least one byte the whole body is written at the starting offset. -/
theorem copyBufferLoop_all (bufLen : Nat) (hb : 1 ≤ bufLen) (fuel : Nat)
    (body content : Bytes) (off : Nat) (hf : body.length < fuel)
    (hoff : off ≤ content.length) :
    copyBufferLoop bufLen fuel body content off = writeAt content off body := by
  induction fuel generalizing body content off with
  | zero => omega
  | succ fuel ih =>
    by_cases hnil : body = []
    · subst hnil
      simp [copyBufferLoop, writeAt_nil]
    · have hpos : 1 ≤ body.length := by
        cases body with
        | nil => exact absurd rfl hnil
        | cons x xs => simp
      simp only [copyBufferLoop, if_neg hnil]
      rw [ih (body.drop bufLen) (writeAt content off (body.take bufLen))
        (off + (body.take bufLen).length) (by rw [List.length_drop]; omega)
        (writeAt_length_ge _ _ _ hoff), writeAt_writeAt _ _ _ _ hoff, List.take_append_drop]

/-- C8: when the probe response does not report range support (status other than 200, or
`Accept-Ranges` other than `bytes`), `Download` without the resume flag issues, after the
probe, exactly one plain GET and leaves every part file as it was, whatever the buffer
size; once the GET has answered, the output file is open and the copy buffer holds at
least one byte, it completes with the body written to the output file from offset 0.
With the resume flag it ends in the `Cannot resume` fatal error with no request after the
probe and with all files untouched. -/
theorem Download_without_range_support (cfg : Config) (srv : Server) (w : World)
    (res : HeadResponse) (hhead : srv.head = some res)
    (hno : ¬ (res.StatusCode = 200 ∧ res.AcceptRanges = "bytes")) :
    (cfg.Resume = false →
      (Download cfg srv w).1.requests = w.requests ++ [Request.head, Request.get] ∧
      (Download cfg srv w).1.fs.parts = w.fs.parts ∧
      ∀ body, srv.get = some body → w.fs.outOpenable = true → 1 ≤ cfg.CopyBufferSize →
        (Download cfg srv w).2 = Outcome.completed ∧
        (Download cfg srv w).1.fs.out = some (writeAt (w.fs.out.getD []) 0 body)) ∧
    (cfg.Resume = true →
      (Download cfg srv w).2 = Outcome.fatal FatalError.cannotResume ∧
      (Download cfg srv w).1.requests = w.requests ++ [Request.head] ∧
      (Download cfg srv w).1.fs = w.fs) := by
  constructor
  · intro hr
    simp only [Download, hhead, if_neg hno, simpleDownload, hr]
    cases hg : srv.get with
    | none => simp
    | some body =>
      cases ho : w.fs.outOpenable with
      | false => simp
      | true =>
        by_cases hsz : cfg.CopyBufferSize < 1
        · simp only [hsz, if_true]
          refine ⟨by simp, rfl, ?_⟩
          intro b _ _ h1
          omega
        · simp only [hsz, if_false]
          refine ⟨by simp, rfl, ?_⟩
          intro b hb _ _
          injection hb with hb
          subst hb
          refine ⟨by simp, ?_⟩
          have hc := copyBufferLoop_all cfg.CopyBufferSize.toNat (by omega)
            (body.length + 1) body (w.fs.out.getD []) 0 (by omega) (Nat.zero_le _)
          simp [hc]
  · intro hr
    simp [Download, hhead, if_neg hno, simpleDownload, hr]

theorem Download_without_range_support_witness :
    ((Server.mk (some (HeadResponse.mk 200 "none" (some 3))) (some [7, 8, 9])
        (fun _ _ => [])).head = some (HeadResponse.mk 200 "none" (some 3)) ∧
      ¬ ((HeadResponse.mk 200 "none" (some 3)).StatusCode = 200 ∧
          (HeadResponse.mk 200 "none" (some 3)).AcceptRanges = "bytes")) ∧
    (Download (Config.mk "u" 4 "o" 2 false)
        (Server.mk (some (HeadResponse.mk 200 "none" (some 3))) (some [7, 8, 9])
          (fun _ _ => [])) (World.mk emptyFS [])).1.requests = [Request.head, Request.get] ∧
    (Download (Config.mk "u" 4 "o" 2 false)
        (Server.mk (some (HeadResponse.mk 200 "none" (some 3))) (some [7, 8, 9])
          (fun _ _ => [])) (World.mk emptyFS [])).1.fs.out = some [7, 8, 9] ∧
    (Download (Config.mk "u" 4 "o" 2 true)
        (Server.mk (some (HeadResponse.mk 200 "none" (some 3))) (some [7, 8, 9])
          (fun _ _ => [])) (World.mk emptyFS [])).2 = Outcome.fatal FatalError.cannotResume :=
  ⟨⟨rfl, by decide⟩,
    ((Download_without_range_support (Config.mk "u" 4 "o" 2 false)
      (Server.mk (some (HeadResponse.mk 200 "none" (some 3))) (some [7, 8, 9]) (fun _ _ => []))
      (World.mk emptyFS []) (HeadResponse.mk 200 "none" (some 3)) rfl (by decide)).1 rfl).1,
    (((Download_without_range_support (Config.mk "u" 4 "o" 2 false)
      (Server.mk (some (HeadResponse.mk 200 "none" (some 3))) (some [7, 8, 9]) (fun _ _ => []))
      (World.mk emptyFS []) (HeadResponse.mk 200 "none" (some 3)) rfl (by decide)).1 rfl).2.2
        [7, 8, 9] rfl rfl (by decide)).2,
    ((Download_without_range_support (Config.mk "u" 4 "o" 2 true)
      (Server.mk (some (HeadResponse.mk 200 "none" (some 3))) (some [7, 8, 9]) (fun _ _ => []))
      (World.mk emptyFS []) (HeadResponse.mk 200 "none" (some 3)) rfl (by decide)).2 rfl).1⟩

/-- With a copy buffer size below 1 the single-stream path creates the output file and
then panics: nothing of the body is written. -/
theorem simpleDownload_buffer_panics :
    (Download (Config.mk "u" 1 "o" (-1) false)
        (Server.mk (some (HeadResponse.mk 200 "none" (some 3))) (some [7, 8, 9])
          (fun _ _ => [])) (World.mk emptyFS [])).2 = Outcome.panic ∧
    (Download (Config.mk "u" 1 "o" (-1) false)
        (Server.mk (some (HeadResponse.mk 200 "none" (some 3))) (some [7, 8, 9])
          (fun _ _ => [])) (World.mk emptyFS [])).1.fs.out = some [] ∧
    (Download (Config.mk "u" 1 "o" 0 false)
        (Server.mk (some (HeadResponse.mk 200 "none" (some 3))) (some [7, 8, 9])
          (fun _ _ => [])) (World.mk emptyFS [])).2 = Outcome.panic := by
  decide

/-! ## Runs of the multi-part download on concrete resources -/

/-- C3: a resource of `N = 3` bytes fetched with `C = 4`.  The plan is
`[0,0] [1,1] [2,2] [3,3]`, every worker returns at `rangeStart >= rangeStop` without a
request, no part file is written, and `merge` creates an empty output file and dies on the
missing `.part1`: the output is not the resource. -/
theorem multiDownload_three_bytes_four_parts :
    freshRanges 3 4 = [(0, 0), (1, 1), (2, 2), (3, 3)] ∧
    (multiDownload (Config.mk "u" 4 "o" 1024 false) (rangeServer [7, 8, 9]) 3
        (World.mk emptyFS [])).1.requests = [] ∧
    (multiDownload (Config.mk "u" 4 "o" 1024 false) (rangeServer [7, 8, 9]) 3
        (World.mk emptyFS [])).2 = Outcome.fatal (FatalError.openPart 1) ∧
    (multiDownload (Config.mk "u" 4 "o" 1024 false) (rangeServer [7, 8, 9]) 3
        (World.mk emptyFS [])).1.fs.out = some [] ∧
    (multiDownload (Config.mk "u" 4 "o" 1024 false) (rangeServer [7, 8, 9]) 3
        (World.mk emptyFS [])).1.fs.out ≠ some [7, 8, 9] := by
  decide

/-- C4: a resource of `N = 4` bytes fetched with `C = 2`; the plan is `[0,2] [3,4]`.  The
run that is never paused writes the whole resource.  After a pause that left `.part1` with
2 of the 3 bytes of its range (one chunk of `CopyBufferSize = 2`) and `.part2` empty, the resumed run skips worker 1
(`2 >= 2`), and the merged output lacks the byte at offset 2. -/
theorem resume_one_byte_left_differs :
    freshRanges 4 2 = [(0, 2), (3, 4)] ∧
    (multiDownload (Config.mk "u" 2 "o" 2 false) (rangeServer [10, 11, 12, 13]) 4
        (World.mk emptyFS [])).1.fs.out = some [10, 11, 12, 13] ∧
    (multiDownload (Config.mk "u" 2 "o" 2 false) (rangeServer [10, 11, 12, 13]) 4
        (World.mk emptyFS [])).2 = Outcome.completed ∧
    (Resume (Config.mk "u" 2 "o" 2 false) (rangeServer [10, 11, 12, 13])
        (World.mk (partsFS [[10, 11], []]) [])).2 = Outcome.completed ∧
    (Resume (Config.mk "u" 2 "o" 2 false) (rangeServer [10, 11, 12, 13])
        (World.mk (partsFS [[10, 11], []]) [])).1.requests =
      [Request.head, Request.getRange "bytes=3-4"] ∧
    (Resume (Config.mk "u" 2 "o" 2 false) (rangeServer [10, 11, 12, 13])
        (World.mk (partsFS [[10, 11], []]) [])).1.fs.out = some [10, 11, 13] := by
  decide

set_option maxRecDepth 100000 in
/-- C5: `N = 1000`, `C = 4`, part files of lengths 250, 250, 100, 0.  The resumed plan
calls `downloadPartial` with `(250, 250)`, `(501, 501)`, `(602, 752)`, `(753, 1000)`:
worker 1 issues no request although its range `[0, 250]` holds 251 bytes and only 250 are
on disk, and worker 3 requests `bytes=602-752`, not `bytes=600-749`. -/
theorem resume_requests_thousand_bytes :
    freshRanges 1000 4 = [(0, 250), (251, 501), (502, 752), (753, 1000)] ∧
    multiDownloadCalls 1000 4
        (resumeDownloaded (Config.mk "u" 4 "o" 50 true)
          (partsFS [List.replicate 250 0, List.replicate 250 0, List.replicate 100 0, []])) =
      [PartialCall.mk 250 250 1, PartialCall.mk 501 501 2, PartialCall.mk 602 752 3,
        PartialCall.mk 753 1000 4] ∧
    250 ≠ rangeLength (0, 250) ∧
    (downloadPartial (Config.mk "u" 4 "o" 50 true) (rangeServer (List.replicate 1000 0))
        (PartialCall.mk 250 250 1)
        (World.mk (partsFS [List.replicate 250 0, List.replicate 250 0,
          List.replicate 100 0, []]) [])).requests = [] ∧
    (downloadPartial (Config.mk "u" 4 "o" 50 true) (rangeServer (List.replicate 1000 0))
        (PartialCall.mk 602 752 3)
        (World.mk (partsFS [List.replicate 250 0, List.replicate 250 0,
          List.replicate 100 0, []]) [])).requests = [Request.getRange "bytes=602-752"] ∧
    rangeHeader 602 752 ≠ "bytes=600-749" := by
  decide

/-! ## Renaming of an existing output path -/

/-- C7: the output path `dir/hello.pdf` exists.  `GetFilenameAndExt` keeps the directory
in the file name (`dir/hello`), `filepath.Dir` gives `dir`, and joining the two puts the
renamed file in `dir/dir`: the new path is `dir/dir/hello(1).pdf`, not `dir/hello(1).pdf`. -/
theorem rename_with_directory :
    GetFilenameAndExt "dir/hello.pdf" = ("dir/hello", ".pdf") ∧
    filepathDir "dir/hello.pdf" = "dir" ∧
    (NewFromConfig (Config.mk "http://host/hello.pdf" 1 "dir/hello.pdf" 1024 false)
        ["dir/hello.pdf"]).map Config.OutFilename = some "dir/dir/hello(1).pdf" ∧
    (NewFromConfig (Config.mk "http://host/hello.pdf" 1 "dir/hello.pdf" 1024 false)
        ["dir/hello.pdf"]).map Config.OutFilename ≠ some "dir/hello(1).pdf" ∧
    (NewFromConfig (Config.mk "http://host/hello.pdf" 1 "hello.pdf" 1024 false)
        ["hello.pdf"]).map Config.OutFilename = some "hello(1).pdf" := by
  decide

/-! ## When the multi-part download does reproduce the resource

The runs above fail on small resources and on a resume one byte short of a range.  The
lemmas below show what the same definitions do on a fresh run whose last range starts
inside the resource, `(C - 1) * (N / C + 1) < N`: every worker fetches its range and the
merged output is the resource. -/

/-- The bound `body.length + 1` on the iterations of the copy loop is enough: with a
buffer of at least one byte the loop writes the whole body after the current content. -/
theorem copyLoop_all (bufSize : Nat) (app : Bool) (hb : 1 ≤ bufSize) (fuel : Nat)
    (body content : Bytes) (hf : body.length < fuel) :
    copyLoop bufSize app fuel body content content.length = content ++ body := by
  induction fuel generalizing body content with
  | zero => omega
  | succ fuel ih =>
    have hc : (if app = true then content ++ List.take bufSize body
        else writeAt content content.length (List.take bufSize body)) =
        content ++ List.take bufSize body := by
      cases app <;> simp [writeAt_length]
    simp only [copyLoop, hc]
    by_cases hlt : (List.take bufSize body).length < bufSize
    · rw [if_pos hlt]
      have hshort : body.length < bufSize := by
        rw [List.length_take] at hlt
        omega
      rw [List.take_of_length_le (Nat.le_of_lt hshort)]
    · rw [if_neg hlt]
      have hlen : (List.take bufSize body).length = bufSize := by
        rw [List.length_take] at hlt ⊢
        omega
      have hge : bufSize ≤ body.length := by
        rw [List.length_take] at hlen
        omega
      have hrec := ih (body.drop bufSize) (content ++ List.take bufSize body)
        (by rw [List.length_drop]; omega)
      rw [List.length_append] at hrec
      rw [hrec, List.append_assoc, List.take_append_drop]

/-- The worker issues no request exactly when `rangeStart >= rangeStop`, and otherwise
exactly one GET with `Range: bytes=<rangeStart>-<rangeStop>`. -/
theorem downloadPartial_requests (cfg : Config) (srv : Server) (c : PartialCall) (w : World) :
    (downloadPartial cfg srv c w).requests =
      if c.rangeStart ≥ c.rangeStop then w.requests
      else w.requests ++ [Request.getRange (rangeHeader c.rangeStart c.rangeStop)] := by
  unfold downloadPartial
  split <;> rfl

/-- Closed form of the fresh plan: part `j + 1` starts at `j * (N / C + 1)`; it stops at
`j * (N / C + 1) + N / C`, except the last part, which stops at `N`. -/
theorem multiDownloadCalls_fresh (N C j : Nat) (hj : j < C) :
    (multiDownloadCalls N C freshDownloaded)[j]? =
      some (if j + 1 = C then
          { rangeStart := j * (N / C + 1), rangeStop := N, partialNum := j + 1 }
        else
          { rangeStart := j * (N / C + 1), rangeStop := j * (N / C + 1) + N / C,
            partialNum := j + 1 }) := by
  have h := multiDownloadLoop_getElem? N (N / C) C freshDownloaded C 1 0 j hj
  simp only [freshDownloaded, Nat.zero_add, Nat.add_zero, Nat.add_comm 1 j] at h
  exact h

theorem multiDownloadLoop_partialNum (N p C : Nat) (d : Nat → Nat) (k i s : Nat) :
    (multiDownloadLoop N p C d k i s).map PartialCall.partialNum = List.range' i k := by
  induction k generalizing i s with
  | zero => rfl
  | succ k ih =>
    simp only [multiDownloadLoop, List.map_cons, List.range'_succ, ih]
    split <;> rfl

theorem workers_foldl (cfg : Config) (srv : Server) (hb : 1 ≤ cfg.CopyBufferSize) (cs : List PartialCall) (w : World)
    (hlt : ∀ c ∈ cs, c.rangeStart < c.rangeStop)
    (hnd : (cs.map PartialCall.partialNum).Nodup)
    (hnone : ∀ c ∈ cs, w.fs.parts c.partialNum = none) :
    (cs.foldl (fun acc c => downloadPartial cfg srv c acc) w).fs.out = w.fs.out ∧
    (cs.foldl (fun acc c => downloadPartial cfg srv c acc) w).fs.outOpenable =
      w.fs.outOpenable ∧
    (∀ c ∈ cs, (cs.foldl (fun acc c => downloadPartial cfg srv c acc) w).fs.parts
        c.partialNum = some (srv.getRange c.rangeStart c.rangeStop)) ∧
    (∀ m, m ∉ cs.map PartialCall.partialNum →
      (cs.foldl (fun acc c => downloadPartial cfg srv c acc) w).fs.parts m =
        w.fs.parts m) := by
  induction cs generalizing w with
  | nil => simp
  | cons c cs ih =>
    have hc : c.rangeStart < c.rangeStop := hlt c (List.mem_cons_self _ _)
    have hcn : w.fs.parts c.partialNum = none := hnone c (List.mem_cons_self _ _)
    rw [List.map_cons, List.nodup_cons] at hnd
    have hstep : downloadPartial cfg srv c w =
        World.mk
          { w.fs with
            parts := (Function.update w.fs.parts c.partialNum
              (some (srv.getRange c.rangeStart c.rangeStop))) }
          (w.requests ++ [Request.getRange (rangeHeader c.rangeStart c.rangeStop)]) := by
      have hnot : ¬ (c.rangeStart ≥ c.rangeStop) := by omega
      have hcopy := copyLoop_all cfg.CopyBufferSize.toNat cfg.Resume (by omega)
        ((srv.getRange c.rangeStart c.rangeStop).length + 1)
        (srv.getRange c.rangeStart c.rangeStop) [] (by omega)
      simp only [List.length_nil, List.nil_append] at hcopy
      simp only [downloadPartial, if_neg hnot, hcn, Option.getD_none, hcopy]
    have hne : ∀ c2 ∈ cs, c2.partialNum ≠ c.partialNum := by
      intro c2 h2 e
      exact hnd.1 (e ▸ List.mem_map_of_mem _ h2)
    obtain ⟨i1, i2, i3, i4⟩ := ih (downloadPartial cfg srv c w)
      (fun c2 h2 => hlt c2 (List.mem_cons_of_mem _ h2)) hnd.2
      (by
        intro c2 h2
        rw [hstep]
        simp only [Function.update, hne c2 h2, dite_false]
        exact hnone c2 (List.mem_cons_of_mem _ h2))
    simp only [List.foldl_cons]
    refine ⟨?_, ?_, ?_, ?_⟩
    · rw [i1, hstep]
    · rw [i2, hstep]
    · intro c2 h2
      rcases List.mem_cons.mp h2 with e | h2
      · subst e
        rw [i4 _ hnd.1, hstep]
        simp [Function.update]
      · exact i3 c2 h2
    · intro m hm
      rw [List.map_cons, List.mem_cons, not_or] at hm
      rw [i4 m hm.2, hstep]
      simp [Function.update, hm.1]

theorem take_append_take_drop (l : Bytes) (a c : Nat) (h : a ≤ c) :
    l.take a ++ (l.take c).drop a = l.take c := by
  have h1 : (l.take c).take a = l.take a := by
    rw [List.take_take, Nat.min_eq_left h]
  rw [← h1, List.take_append_drop]

/-- The merge loop on part files that hold consecutive slices of `res`: with the output
holding `res.take (bnd i)` and part `m` holding the bytes at offsets `bnd m .. bnd (m+1) - 1`,
the loop completes and the output holds `res.take (bnd (i + k))`. -/
theorem mergeLoop_slices (res : Bytes) (bnd : Nat → Nat) (hmono : ∀ m, bnd m ≤ bnd (m + 1))
    (k i off : Nat) (fs : FS)
    (hout : fs.out = some (res.take (bnd i))) (hoff : off = (res.take (bnd i)).length)
    (hp : ∀ m, i ≤ m → m < i + k →
      fs.parts m = some ((res.take (bnd (m + 1))).drop (bnd m))) :
    (mergeLoop k i off fs).2 = Outcome.completed ∧
    (mergeLoop k i off fs).1.out = some (res.take (bnd (i + k))) := by
  induction k generalizing i off fs with
  | zero => exact ⟨rfl, by simpa [mergeLoop] using hout⟩
  | succ k ih =>
    have hpi := hp i (le_refl i) (by omega)
    have hw : writeAt (res.take (bnd i)) off ((res.take (bnd (i + 1))).drop (bnd i)) =
        res.take (bnd (i + 1)) := by
      rw [hoff, writeAt_length, take_append_take_drop res _ _ (hmono i)]
    simp only [mergeLoop, hpi, hout, Option.getD_some, hw]
    have hrec := ih (i + 1) (off + ((res.take (bnd (i + 1))).drop (bnd i)).length)
      { fs with
        out := some (res.take (bnd (i + 1)))
        parts := Function.update fs.parts i none } rfl
      (by
        have hl := congrArg List.length hw
        rw [hoff, writeAt_length, List.length_append] at hl
        rw [hoff]
        exact hl)
      (by
        intro m h1 h2
        have hne : m ≠ i := by omega
        simp only [Function.update, hne, dite_false]
        exact hp m (by omega) (by omega))
    have e : i + 1 + k = i + (k + 1) := by omega
    rw [e] at hrec
    exact hrec

/-- With no part file and no output file on disk, a buffer of at least one byte and
`(C - 1) * (N / C + 1) < N`, the multi-part download of `res` from the range server
completes and the output file is `res`. -/
theorem multiDownload_roundtrip (cfg : Config) (res : Bytes) (w : World)
    (hb : 1 ≤ cfg.CopyBufferSize) (hC : 1 ≤ cfg.Concurrency)
    (hbig : (cfg.Concurrency - 1) * (res.length / cfg.Concurrency + 1) < res.length)
    (hparts : ∀ m, w.fs.parts m = none) (hout : w.fs.out = none)
    (hopen : w.fs.outOpenable = true) :
    (multiDownload cfg (rangeServer res) res.length w).2 = Outcome.completed ∧
    (multiDownload cfg (rangeServer res) res.length w).1.fs.out = some res := by
  obtain ⟨C1, hC1⟩ : ∃ C1, cfg.Concurrency = C1 + 1 := ⟨cfg.Concurrency - 1, by omega⟩
  rw [hC1] at hbig
  simp only [Nat.add_sub_cancel] at hbig
  have hd : resumeDownloaded cfg w.fs = freshDownloaded := by
    funext i
    simp only [resumeDownloaded, hparts, freshDownloaded]
    split <;> rfl
  -- every planned range is non-empty for the guard
  have hp1 : C1 = 0 ∨ 1 ≤ res.length / (C1 + 1) := by
    by_cases h0 : C1 = 0
    · exact Or.inl h0
    · right
      by_contra hlt
      have hz : res.length / (C1 + 1) = 0 := Nat.eq_zero_of_not_pos (by
        intro hpos
        exact hlt hpos)
      have hlt2 : res.length < C1 + 1 := (Nat.div_eq_zero_iff (by omega)).mp hz
      rw [hz] at hbig
      omega
  have hcalls : ∀ j, j < C1 + 1 →
      (multiDownloadCalls res.length cfg.Concurrency freshDownloaded)[j]? =
        some (if j + 1 = C1 + 1 then
            { rangeStart := j * (res.length / (C1 + 1) + 1), rangeStop := res.length,
              partialNum := j + 1 }
          else
            { rangeStart := j * (res.length / (C1 + 1) + 1),
              rangeStop := j * (res.length / (C1 + 1) + 1) + res.length / (C1 + 1),
              partialNum := j + 1 }) := by
    intro j hj
    have h := multiDownloadCalls_fresh res.length cfg.Concurrency j (by omega)
    rw [hC1] at h
    rw [hC1]
    exact h
  have hlen : (multiDownloadCalls res.length cfg.Concurrency freshDownloaded).length =
      C1 + 1 := by
    rw [multiDownloadCalls, multiDownloadLoop_length, hC1]
  have hlt : ∀ c ∈ multiDownloadCalls res.length cfg.Concurrency freshDownloaded,
      c.rangeStart < c.rangeStop := by
    intro c hc
    obtain ⟨j, hj⟩ := List.mem_iff_getElem?.mp hc
    have hjlt : j < C1 + 1 := by
      by_contra hge
      rw [List.getElem?_eq_none (by omega)] at hj
      cases hj
    rw [hcalls j hjlt] at hj
    injection hj with hj
    subst hj
    split
    · have : j = C1 := by omega
      subst this
      exact hbig
    · rcases hp1 with h0 | h1
      · omega
      · simp only []
        omega
  have hnd : ((multiDownloadCalls res.length cfg.Concurrency freshDownloaded).map
      PartialCall.partialNum).Nodup := by
    rw [multiDownloadCalls, multiDownloadLoop_partialNum]
    exact List.nodup_range' _ _
  obtain ⟨f1, f2, f3, _⟩ := workers_foldl cfg (rangeServer res) hb
    (multiDownloadCalls res.length cfg.Concurrency freshDownloaded) w hlt hnd
    (fun c _ => hparts c.partialNum)
  have hmono : ∀ m, (fun m => if m ≤ C1 + 1 then (m - 1) * (res.length / (C1 + 1) + 1)
      else res.length + 1) m ≤
      (fun m => if m ≤ C1 + 1 then (m - 1) * (res.length / (C1 + 1) + 1)
      else res.length + 1) (m + 1) := by
    intro m
    simp only []
    by_cases h1 : m + 1 ≤ C1 + 1
    · rw [if_pos (by omega), if_pos h1]
      exact Nat.mul_le_mul_right _ (by omega)
    · by_cases h2 : m ≤ C1 + 1
      · have hm : m = C1 + 1 := by omega
        subst hm
        rw [if_pos (le_refl _), if_neg h1]
        simp only [Nat.add_sub_cancel]
        omega
      · rw [if_neg h2, if_neg h1]
  have hmerge := mergeLoop_slices res _ hmono (C1 + 1) 1 0
    { (List.foldl (fun acc c => downloadPartial cfg (rangeServer res) c acc) w
        (multiDownloadCalls res.length cfg.Concurrency freshDownloaded)).fs with
      out := some [] }
    (by simp) (by simp)
    (by
      intro m hm1 hm2
      obtain ⟨j, rfl⟩ : ∃ j, m = j + 1 := ⟨m - 1, by omega⟩
      have hj : j < C1 + 1 := by omega
      have hmem := List.getElem?_mem (hcalls j hj)
      have hpart := f3 _ hmem
      simp only [Nat.add_sub_cancel]
      by_cases hlast : j + 1 = C1 + 1
      · rw [if_pos hlast] at hpart
        rw [if_pos (by omega), if_neg (by omega)]
        exact hpart
      · rw [if_neg hlast] at hpart
        rw [if_pos (by omega), if_pos (by omega)]
        have e : (j + 1) * (res.length / (C1 + 1) + 1) =
            j * (res.length / (C1 + 1) + 1) + res.length / (C1 + 1) + 1 := by ring
        rw [e]
        exact hpart)
  have hfinal : (if 1 + (C1 + 1) ≤ C1 + 1 then (1 + (C1 + 1) - 1) * (res.length / (C1 + 1) + 1)
      else res.length + 1) = res.length + 1 := by
    rw [if_neg (by omega)]
  simp only [hfinal] at hmerge
  rw [List.take_of_length_le (by omega)] at hmerge
  have hm : merge cfg (List.foldl (fun acc c => downloadPartial cfg (rangeServer res) c acc) w
        (multiDownloadCalls res.length cfg.Concurrency freshDownloaded)).fs =
      mergeLoop (C1 + 1) 1 0
        { (List.foldl (fun acc c => downloadPartial cfg (rangeServer res) c acc) w
            (multiDownloadCalls res.length cfg.Concurrency freshDownloaded)).fs with
          out := some [] } := by
    unfold merge
    rw [if_pos (f2.trans hopen), f1, hout, hC1]
    rfl
  simp only [multiDownload, multiDownloadWorkers, hd]
  rw [hm]
  exact hmerge

theorem multiDownload_roundtrip_example :
    (multiDownload (Config.mk "u" 3 "o" 2 false) (rangeServer [1, 2, 3, 4, 5, 6, 7]) 7
      (World.mk emptyFS [])).1.fs.out = some [1, 2, 3, 4, 5, 6, 7] :=
  (multiDownload_roundtrip (Config.mk "u" 3 "o" 2 false) [1, 2, 3, 4, 5, 6, 7]
    (World.mk emptyFS []) (by decide) (by decide) (by decide) (fun _ => rfl) rfl rfl).2

end WebDL
